import Mathlib

/-!
Verification of the Schedule-Assistant scheduling core against its
specification.  The Python source is shallowly embedded: timestamps are
integer minutes, Python dicts become insertion-ordered association lists,
Python's stable `sorted` becomes `List.insertionSort` (stable sorts with the
same comparison are extensionally equal), and raised exceptions become
`Except` errors carrying the exception message.
-/

namespace ScheduleAssistant

/-- Task record, from `scheduler_agency.py` (dataclass `Task`).
Timestamps (`due_date`, `scheduled_start`, `scheduled_end`) are modelled as
integer minutes since an arbitrary epoch. -/
structure Task where
  id : String
  title : String
  description : String
  priority : Int
  due_date : Int
  status : String
  assigned_to : String
  dependencies : List String
  scheduled_start : Option Int := none
  scheduled_end : Option Int := none
  calendar_event_id : Option String := none
deriving DecidableEq, Repr

/-- Time slot record, from `calendar_checking_agent.py` (dataclass `TimeSlot`),
with `datetime` values modelled as integer minutes. -/
structure TimeSlot where
  start_time : Int
  end_time : Int
  is_available : Bool
deriving DecidableEq, Repr

/-! ### Python dict model

Python dicts preserve insertion order; we model them as association lists.
Assignment `d[k] = v` updates the first entry with key `k` in place, or
appends a fresh entry at the end. -/

/-- `d.get(k)` / `d[k]` lookup: value of the first entry with key `k`. -/
def dictFind? {α : Type} (d : List (String × α)) (k : String) : Option α :=
  (d.find? (fun p => p.1 == k)).map (fun p => p.2)

/-- `d[k] = v`: replace the value of the first entry with key `k`,
or append `(k, v)` when `k` is absent. -/
def dictSet {α : Type} (d : List (String × α)) (k : String) (v : α) :
    List (String × α) :=
  match d with
  | [] => [(k, v)]
  | (k1, v1) :: rest =>
      if k1 = k then (k, v) :: rest else (k1, v1) :: dictSet rest k v

/-- The keys of an association list, in order. -/
def dictKeys {α : Type} (d : List (String × α)) : List String :=
  d.map (fun p => p.1)

/-! ### DependencyResolver: `_topological_sort` (task_optimizer_agent.py)

The recursive `visit` uses mutable sets `visited`, `temp` and the list
`order`; we thread them through a state record.  The Python recursion always
terminates (re-entering a node on the current path raises), which we realise
with a fuel parameter large enough that exhaustion is unreachable for the
inputs considered. -/

/-- The mutable state of the Python closure `visit`:
`visited` and `temp` are sets (only membership is used), `order` is the
output list built by `order.append`. -/
structure TopoState where
  visited : List String
  temp : List String
  order : List String
deriving Repr

/-- `graph.get(task_id, [])` from the for-loop in `visit`. -/
def graphGet (graph : List (String × List String)) (id : String) :
    List String :=
  match graph.find? (fun p => p.1 == id) with
  | some p => p.2
  | none => []

/-- The recursive helper `visit(task_id)` of `_topological_sort`.
Raising `ValueError("Circular dependency detected")` becomes an
`Except.error` with the same message. -/
def visit (graph : List (String × List String)) :
    Nat → String → TopoState → Except String TopoState
  | 0, _, _ => Except.error "fuel exhausted"
  | fuel + 1, id, st =>
    if id ∈ st.temp then Except.error "Circular dependency detected"
    else if id ∈ st.visited then Except.ok st
    else do
      let st1 : TopoState := { st with temp := id :: st.temp }
      let st2 ← (graphGet graph id).foldlM
        (fun s d => visit graph fuel d s) st1
      Except.ok { st2 with
        temp := st2.temp.erase id
        visited := st2.visited ++ [id]
        order := st2.order ++ [id] }

/-- Fuel that bounds the recursion depth of `visit`: the nesting depth is
bounded by the number of distinct ids occurring in the graph, which is at
most the number of keys plus the number of dependency occurrences. -/
def topoFuel (graph : List (String × List String)) : Nat :=
  graph.length + (graph.map (fun p => p.2.length)).sum + 1

/-- `_topological_sort(graph)` from `task_optimizer_agent.py`: iterate the
keys in insertion order, visiting each unvisited one, then return
`order[::-1]`. -/
def _topological_sort (graph : List (String × List String)) :
    Except String (List String) := do
  let st ← graph.foldlM
    (fun s p =>
      if p.1 ∈ s.visited then Except.ok s
      else visit graph (topoFuel graph) p.1 s)
    (⟨[], [], []⟩ : TopoState)
  Except.ok st.order.reverse

/-! ### AvailabilityComputer (calendar_checking_agent.py)

`get_availability` fetches the busy events from the Google Calendar API and
then sweeps them (lines 60-81).  We embed the sweep, taking the busy slots
as the input list, in the order the API returned them (the code never sorts
them itself). -/

/-- The sweep loop of `get_availability`: a cursor `current_time` walks the
busy slots; a gap before a busy slot is emitted as an available slot, then
the cursor is set to that slot's end; a final slot is emitted when the
cursor is still before `end_time`. -/
def availabilitySweep (busy : List TimeSlot) (current_time end_time : Int) :
    List TimeSlot :=
  match busy with
  | [] =>
      if current_time < end_time then [⟨current_time, end_time, true⟩] else []
  | b :: rest =>
      (if current_time < b.start_time
        then [⟨current_time, b.start_time, true⟩] else [])
        ++ availabilitySweep rest b.end_time end_time

/-- `get_availability(start_time, end_time)` with the busy slots supplied by
the calendar collaborator passed in explicitly. -/
def get_availability (start_time end_time : Int)
    (busy_slots : List TimeSlot) : List TimeSlot :=
  availabilitySweep busy_slots start_time end_time

/-- The scan loop of `find_next_available_slot`: return the first slot whose
duration is at least `duration`, clipped to `duration`. -/
def firstSlotScan (duration : Int) : List TimeSlot → Option TimeSlot
  | [] => none
  | s :: rest =>
      if duration ≤ s.end_time - s.start_time then
        some ⟨s.start_time, s.start_time + duration, true⟩
      else firstSlotScan duration rest

/-- `find_next_available_slot(duration, start_from)`: the window is the
seven days (10080 minutes) following `start_from`; the busy slots of that
window are passed in explicitly. -/
def find_next_available_slot (duration start_from : Int)
    (busy : List TimeSlot) : Option TimeSlot :=
  firstSlotScan duration (get_availability start_from (start_from + 10080) busy)

/-- Two half-open intervals `[x.start, x.end)`, `[y.start, y.end)` overlap. -/
def slotsOverlap (x y : TimeSlot) : Prop :=
  max x.start_time y.start_time < min x.end_time y.end_time

instance (x y : TimeSlot) : Decidable (slotsOverlap x y) := by
  unfold slotsOverlap; infer_instance

/-! ### TaskDistributor: `suggest_task_redistribution` (task_optimizer_agent.py) -/

/-- `sorted(tasks, key=lambda x: x.priority, reverse=True)`: Python's sort is
stable, and a stable sort is extensionally determined by its comparison, so
we use `insertionSort` (also stable) with the descending-priority order. -/
def priorityDesc (a b : Task) : Prop := b.priority ≤ a.priority

instance : DecidableRel priorityDesc := fun a b => by
  unfold priorityDesc; infer_instance

def sortByPriorityDesc (tasks : List Task) : List Task :=
  tasks.insertionSort priorityDesc

/-- `sum(t.priority for t in ts)`, the key of the `min` call. -/
def taskWeightSum (ts : List Task) : Int :=
  (ts.map (fun t => t.priority)).sum

/-- `min(workload.items(), key=lambda x: sum(t.priority for t in x[1]))`:
Python's `min` returns the first item attaining the minimum key, and raises
on an empty sequence (modelled as `none`). -/
def pyMinByWeight (items : List (String × List Task)) :
    Option (String × List Task) :=
  match items with
  | [] => none
  | x :: xs =>
      some (xs.foldl
        (fun best y =>
          if taskWeightSum y.2 < taskWeightSum best.2 then y else best) x)

/-- `suggest_task_redistribution(tasks, agents)`: initialize
`{agent: [] for agent in agents}`, then for each task in descending-priority
order append it to the list of the agent with minimum summed priority.
`workload[min_agent].append(task)` updates that dict entry in place. -/
def suggest_task_redistribution (tasks : List Task) (agents : List String) :
    Option (List (String × List Task)) :=
  (sortByPriorityDesc tasks).foldlM
    (fun workload task =>
      (pyMinByWeight workload).map
        (fun m => dictSet workload m.1 (m.2 ++ [task])))
    (agents.foldl (fun d a => dictSet d a ([] : List Task)) [])

/-! Spec-side model of the distribution policy, for the refinement claim. -/

/-- Modelled from the spec: one agent's running state in the distribution
policy of §4.3 — the agent, its assigned tasks, and its running cumulative
weight. -/
structure AgentLoad where
  agent : String
  assigned : List Task
  weight : Int
deriving DecidableEq, Repr

/-- Modelled from the spec: "assign it to the agent with the current minimum
cumulative weight, ties broken by agent roster order" — the first entry (in
roster order) with minimal running weight. -/
def specArgmin (st : List AgentLoad) : Option AgentLoad :=
  match st with
  | [] => none
  | x :: xs =>
      some (xs.foldl (fun best y => if y.weight < best.weight then y else best) x)

/-- Modelled from the spec: give task `t` to agent `a` — append it to that
agent's list and "add the task's weight to that agent's running total". -/
def specGiveTask (a : String) (t : Task) : List AgentLoad → List AgentLoad
  | [] => []
  | e :: rest =>
      if e.agent = a then
        { e with assigned := e.assigned ++ [t], weight := e.weight + t.priority } :: rest
      else e :: specGiveTask a t rest

/-- Modelled from the spec: one step of the §4.3 policy — pick the minimum-
weight agent and give it the task («never reassigning an already-placed
task»: earlier assignments are only appended to). -/
def specAssignStep (st : List AgentLoad) (t : Task) : Option (List AgentLoad) :=
  (specArgmin st).map (fun m => specGiveTask m.agent t st)

/-- Modelled from the spec (§4.3 `distribute`): "process the task order by
descending priority weight; maintain each agent's running cumulative
weight", starting every agent at weight zero with no tasks. -/
def distributeSpec (tasks : List Task) (agents : List String) :
    Option (List AgentLoad) :=
  (sortByPriorityDesc tasks).foldlM specAssignStep
    (agents.map (fun a => ⟨a, [], 0⟩))

/-- Forget the running weights: the observable part of an `AgentLoad`. -/
def projLoad (e : AgentLoad) : String × List Task := (e.agent, e.assigned)

/-! ### ScheduleStore: `SchedulerAgent` (scheduler_agency.py) -/

/-- The scheduler state: the task dict, the agent roster, and the stored
per-agent schedule. -/
structure SchedulerAgent where
  tasks : List (String × Task)
  agents : List String
  current_schedule : List (String × List Task)
deriving Repr

/-- `add_task(task)`: refuse an existing id, else store the task. -/
def add_task (s : SchedulerAgent) (task : Task) : Bool × SchedulerAgent :=
  if (dictFind? s.tasks task.id).isSome then (false, s)
  else (true, { s with tasks := dictSet s.tasks task.id task })

/-- `assign_task(task_id, agent_id)`: fail when the task or the agent is
unknown, else set the task's `assigned_to` field. -/
def assign_task (s : SchedulerAgent) (task_id agent_id : String) :
    Bool × SchedulerAgent :=
  match dictFind? s.tasks task_id with
  | none => (false, s)
  | some t =>
      if agent_id ∈ s.agents then
        (true,
          { s with
            tasks := dictSet s.tasks task_id { t with assigned_to := agent_id } })
      else (false, s)

/-- `update_task_status(task_id, status)`. -/
def update_task_status (s : SchedulerAgent) (task_id st : String) :
    Bool × SchedulerAgent :=
  match dictFind? s.tasks task_id with
  | none => (false, s)
  | some t =>
      (true, { s with tasks := dictSet s.tasks task_id { t with status := st } })

/-- The per-agent sort key of `optimize_schedule`:
`key=lambda x: (x.priority, x.due_date)`, ascending lexicographic. -/
def taskOrderLe (a b : Task) : Prop :=
  a.priority < b.priority ∨ (a.priority = b.priority ∧ a.due_date ≤ b.due_date)

instance : DecidableRel taskOrderLe := fun a b => by
  unfold taskOrderLe; infer_instance

/-- The tasks of one agent, sorted as in `optimize_schedule` (Python's
stable sort, modelled by the stable `insertionSort`). -/
def agentSortedTasks (s : SchedulerAgent) (agent : String) : List Task :=
  ((s.tasks.map (fun p => p.2)).filter
    (fun t => t.assigned_to == agent)).insertionSort taskOrderLe

/-- `optimize_schedule()`: build the per-agent schedule dict and store it in
`current_schedule`; returns the schedule and the updated state. -/
def optimize_schedule (s : SchedulerAgent) :
    List (String × List Task) × SchedulerAgent :=
  let schedule :=
    s.agents.foldl (fun sch agent => dictSet sch agent (agentSortedTasks s agent)) []
  (schedule, { s with current_schedule := schedule })

/-- `get_agent_schedule(agent_id)`: `self.current_schedule.get(agent_id, [])`. -/
def get_agent_schedule (s : SchedulerAgent) (agent_id : String) : List Task :=
  (dictFind? s.current_schedule agent_id).getD []

/-! ### A substring test, to state that an error message names no task id. -/

/-- `pat` is a prefix of `l` (on character lists). -/
def charsPrefix : List Char → List Char → Bool
  | [], _ => true
  | _ :: _, [] => false
  | a :: as, b :: bs => a == b && charsPrefix as bs

/-- `pat` occurs somewhere in `l` (on character lists). -/
def charsContains (l pat : List Char) : Bool :=
  match l with
  | [] => pat.isEmpty
  | _ :: t => charsPrefix pat l || charsContains t pat

/-- The message `msg` mentions the id `pat` as a substring. -/
def strMentions (msg pat : String) : Bool :=
  charsContains msg.data pat.data

/-! ## Helper lemmas -/

lemma exceptBind_ok {ε α β : Type} (a : α) (f : α → Except ε β) :
    (Except.ok a >>= f) = f a := rfl

lemma exceptBind_error {ε α β : Type} (e : ε) (f : α → Except ε β) :
    ((Except.error e : Except ε α) >>= f) = Except.error e := rfl

/-! ## Claims about the dependency resolver -/

/-- C1: the claim asserts every dependency appears strictly before its task
in `order(tasks)`.  The recursive `visit` does append each node after its
dependencies, but `_topological_sort` then returns `order[::-1]`, undoing
exactly that: for the two-task set where `A` depends on `B`, the code
returns `["A", "B"]`, with the dependency `"B"` *after* `"A"`. -/
theorem topo_order_reversed_eval :
    _topological_sort [("A", ["B"]), ("B", [])] = Except.ok ["A", "B"] ∧
    ¬ List.indexOf "B" ["A", "B"] < List.indexOf "A" ["A", "B"] :=
  ⟨rfl, by decide⟩

/-- C4 counterexample: the two-task cycle does raise, but the `ValueError`
message is the fixed string `"Circular dependency detected"`, which names
neither task on the cycle. -/
theorem topo_cycle_names_no_task :
    _topological_sort [("t1", ["t2"]), ("t2", ["t1"])]
      = Except.error "Circular dependency detected" ∧
    strMentions "Circular dependency detected" "t1" = false ∧
    strMentions "Circular dependency detected" "t2" = false :=
  ⟨rfl, by decide, by decide⟩

/-- C6 counterexample: a task `A` with the dangling dependency id
`"missing"` does not make `order` fail; the run succeeds and the unknown id
is included in the output order. -/
theorem topo_unknown_dep_counterexample :
    _topological_sort [("A", ["missing"])] = Except.ok ["A", "missing"] ∧
    "missing" ∈ ["A", "missing"] :=
  ⟨rfl, by decide⟩

/-! ### General soundness of the dependency walk

The following lemmas settle the cycle and dangling-dependency claims at full
scope: `visit` preserves the `temp` path on success, its only error messages
are the fuel sentinel and the fixed cycle message, the fuel sentinel is
unreachable under `topoFuel` (the `temp` path grows strictly inside the
finite id universe), and a successful run maintains the `TopoInv` invariant,
whose `closed` component rules out any dependency cycle. -/

def edgeTo (graph : List (String × List String)) (a d : String) : Prop :=
  d ∈ graphGet graph a

instance (graph : List (String × List String)) (a d : String) :
    Decidable (edgeTo graph a d) := by
  unfold edgeTo; infer_instance

def hasCycle (graph : List (String × List String)) : Prop :=
  ∃ a p, List.Chain (edgeTo graph) a (p ++ [a])

def usedIds (graph : List (String × List String)) : List String :=
  dictKeys graph ++ (graph.map (fun p => p.2)).flatten

lemma exceptPure {ε α : Type} (a : α) : (pure a : Except ε α) = Except.ok a := rfl

lemma graphGet_subset_usedIds (graph : List (String × List String))
    (id : String) : ∀ d ∈ graphGet graph id, d ∈ usedIds graph := by
  intro d hd
  unfold graphGet at hd
  cases hq : graph.find? (fun p => p.1 == id) with
  | none => rw [hq] at hd; cases hd
  | some q =>
      rw [hq] at hd
      have hqg : q ∈ graph := List.mem_of_find?_eq_some hq
      unfold usedIds
      exact List.mem_append.mpr
        (Or.inr (List.mem_flatten_of_mem (List.mem_map.mpr ⟨q, hqg, rfl⟩) hd))

lemma key_mem_usedIds (graph : List (String × List String)) :
    ∀ p ∈ graph, p.1 ∈ usedIds graph := by
  intro p hp
  unfold usedIds dictKeys
  exact List.mem_append.mpr (Or.inl (List.mem_map.mpr ⟨p, hp, rfl⟩))

lemma edge_source_mem_keys (graph : List (String × List String))
    (a d : String) (h : edgeTo graph a d) : a ∈ dictKeys graph := by
  unfold edgeTo graphGet at h
  cases hq : graph.find? (fun p => p.1 == a) with
  | none => rw [hq] at h; cases h
  | some q =>
      have hq1 : q.1 = a := by
        have := List.find?_some hq
        simpa using this
      have hqg : q ∈ graph := List.mem_of_find?_eq_some hq
      unfold dictKeys
      exact List.mem_map.mpr ⟨q, hqg, hq1⟩

lemma visit_succ (graph : List (String × List String)) (fuel : Nat)
    (id : String) (st : TopoState) :
    visit graph (fuel + 1) id st =
      if id ∈ st.temp then Except.error "Circular dependency detected"
      else if id ∈ st.visited then Except.ok st
      else
        ((graphGet graph id).foldlM (fun s d => visit graph fuel d s)
            { st with temp := id :: st.temp }) >>= fun st2 =>
          Except.ok { st2 with
            temp := st2.temp.erase id
            visited := st2.visited ++ [id]
            order := st2.order ++ [id] } := rfl

lemma visit_temp (graph : List (String × List String)) :
    ∀ (fuel : Nat) (id : String) (st st1 : TopoState),
    visit graph fuel id st = Except.ok st1 → st1.temp = st.temp := by
  intro fuel
  induction fuel with
  | zero => intro id st st1 h; simp [visit] at h
  | succ n ih =>
      have fold : ∀ (ds : List String) (st st1 : TopoState),
          ds.foldlM (fun s d => visit graph n d s) st = Except.ok st1 →
          st1.temp = st.temp := by
        intro ds
        induction ds with
        | nil =>
            intro st st1 h
            rw [List.foldlM_nil, exceptPure] at h
            simp only [Except.ok.injEq] at h
            rw [← h]
        | cons d ds ihds =>
            intro st st1 h
            rw [List.foldlM_cons] at h
            cases hv : visit graph n d st with
            | error e => rw [hv, exceptBind_error] at h; simp at h
            | ok s1 =>
                rw [hv, exceptBind_ok] at h
                rw [ihds s1 st1 h, ih d st s1 hv]
      intro id st st1 h
      rw [visit_succ] at h
      by_cases h1 : id ∈ st.temp
      · rw [if_pos h1] at h; simp at h
      · rw [if_neg h1] at h
        by_cases h2 : id ∈ st.visited
        · rw [if_pos h2] at h
          simp only [Except.ok.injEq] at h
          rw [← h]
        · rw [if_neg h2] at h
          cases hf : (graphGet graph id).foldlM (fun s d => visit graph n d s)
              { st with temp := id :: st.temp } with
          | error e => rw [hf, exceptBind_error] at h; simp at h
          | ok s2 =>
              rw [hf, exceptBind_ok] at h
              simp only [Except.ok.injEq] at h
              have ht2 : s2.temp = id :: st.temp := fold _ _ _ hf
              rw [← h]
              show s2.temp.erase id = st.temp
              rw [ht2, List.erase_cons_head]



lemma visit_error_msg (graph : List (String × List String)) :
    ∀ (fuel : Nat) (id : String) (st : TopoState) (e : String),
    visit graph fuel id st = Except.error e →
    e = "fuel exhausted" ∨ e = "Circular dependency detected" := by
  intro fuel
  induction fuel with
  | zero =>
      intro id st e h
      rw [show visit graph 0 id st = Except.error "fuel exhausted" from rfl] at h
      simp only [Except.error.injEq] at h
      exact Or.inl h.symm
  | succ n ih =>
      have fold : ∀ (ds : List String) (st : TopoState) (e : String),
          ds.foldlM (fun s d => visit graph n d s) st = Except.error e →
          e = "fuel exhausted" ∨ e = "Circular dependency detected" := by
        intro ds
        induction ds with
        | nil => intro st e h; rw [List.foldlM_nil, exceptPure] at h; simp at h
        | cons d ds ihds =>
            intro st e h
            rw [List.foldlM_cons] at h
            cases hv : visit graph n d st with
            | error e2 =>
                rw [hv, exceptBind_error] at h
                simp only [Except.error.injEq] at h
                exact h ▸ ih d st e2 hv
            | ok s1 =>
                rw [hv, exceptBind_ok] at h
                exact ihds s1 e h
      intro id st e h
      rw [visit_succ] at h
      by_cases h1 : id ∈ st.temp
      · rw [if_pos h1] at h
        simp only [Except.error.injEq] at h
        exact Or.inr h.symm
      · rw [if_neg h1] at h
        by_cases h2 : id ∈ st.visited
        · rw [if_pos h2] at h; simp at h
        · rw [if_neg h2] at h
          cases hf : (graphGet graph id).foldlM (fun s d => visit graph n d s)
              { st with temp := id :: st.temp } with
          | error e2 =>
              rw [hf, exceptBind_error] at h
              simp only [Except.error.injEq] at h
              exact h ▸ fold _ _ e2 hf
          | ok s2 => rw [hf, exceptBind_ok] at h; simp at h

def tempMeasure (graph : List (String × List String)) (st : TopoState) : Nat :=
  ((usedIds graph).toFinset \ st.temp.toFinset).card

lemma visit_not_fuel (graph : List (String × List String)) :
    ∀ (fuel : Nat) (id : String) (st : TopoState),
    id ∈ usedIds graph → tempMeasure graph st < fuel →
    visit graph fuel id st ≠ Except.error "fuel exhausted" := by
  intro fuel
  induction fuel with
  | zero => intro id st _ hm; exact absurd hm (Nat.not_lt_zero _)
  | succ n ih =>
      have fold : ∀ (ds : List String) (st : TopoState),
          (∀ d ∈ ds, d ∈ usedIds graph) → tempMeasure graph st < n →
          ds.foldlM (fun s d => visit graph n d s) st
            ≠ Except.error "fuel exhausted" := by
        intro ds
        induction ds with
        | nil => intro st _ _ h; rw [List.foldlM_nil, exceptPure] at h; simp at h
        | cons d ds ihds =>
            intro st hds hm h
            rw [List.foldlM_cons] at h
            cases hv : visit graph n d st with
            | error e =>
                rw [hv, exceptBind_error] at h
                simp only [Except.error.injEq] at h
                exact ih d st (hds d (by simp)) hm (by rw [hv, h])
            | ok s1 =>
                rw [hv, exceptBind_ok] at h
                have hts : tempMeasure graph s1 = tempMeasure graph st := by
                  unfold tempMeasure
                  rw [visit_temp graph n d st s1 hv]
                exact ihds s1 (fun x hx => hds x (by simp [hx]))
                  (by rw [hts]; exact hm) h
      intro id st hid hm h
      rw [visit_succ] at h
      by_cases h1 : id ∈ st.temp
      · rw [if_pos h1] at h
        simp only [Except.error.injEq] at h
        exact absurd h (by decide)
      · rw [if_neg h1] at h
        by_cases h2 : id ∈ st.visited
        · rw [if_pos h2] at h; simp at h
        · rw [if_neg h2] at h
          have hdec : tempMeasure graph { st with temp := id :: st.temp }
              < tempMeasure graph st := by
            show ((usedIds graph).toFinset \ (id :: st.temp).toFinset).card
              < ((usedIds graph).toFinset \ st.temp.toFinset).card
            rw [List.toFinset_cons, Finset.sdiff_insert]
            exact Finset.card_erase_lt_of_mem
              (Finset.mem_sdiff.mpr ⟨List.mem_toFinset.mpr hid,
                fun hc => h1 (List.mem_toFinset.mp hc)⟩)
          have hm1 : tempMeasure graph { st with temp := id :: st.temp } < n := by
            omega
          cases hf : (graphGet graph id).foldlM (fun s d => visit graph n d s)
              { st with temp := id :: st.temp } with
          | error e2 =>
              rw [hf, exceptBind_error] at h
              simp only [Except.error.injEq] at h
              exact fold _ _ (fun d hd => graphGet_subset_usedIds graph id d hd)
                hm1 (by rw [hf, h])
          | ok s2 => rw [hf, exceptBind_ok] at h; simp at h



structure TopoInv (graph : List (String × List String)) (st : TopoState) :
    Prop where
  ve : st.visited = st.order
  nd : st.order.Nodup
  tnd : st.temp.Nodup
  disj : ∀ x ∈ st.temp, x ∉ st.order
  closed : ∀ a ∈ st.order, ∀ d ∈ graphGet graph a,
    d ∈ st.order ∧ st.order.indexOf d < st.order.indexOf a

lemma visit_sound (graph : List (String × List String)) :
    ∀ (fuel : Nat) (id : String) (st st1 : TopoState),
    visit graph fuel id st = Except.ok st1 → TopoInv graph st →
    TopoInv graph st1 ∧ st1.temp = st.temp ∧
      (∃ ext, st1.order = st.order ++ ext) ∧ id ∈ st1.order := by
  intro fuel
  induction fuel with
  | zero => intro id st st1 h _; simp [visit] at h
  | succ n ih =>
      have fold : ∀ (ds : List String) (st st1 : TopoState),
          ds.foldlM (fun s d => visit graph n d s) st = Except.ok st1 →
          TopoInv graph st →
          TopoInv graph st1 ∧ st1.temp = st.temp ∧
            (∃ ext, st1.order = st.order ++ ext) ∧ ∀ d ∈ ds, d ∈ st1.order := by
        intro ds
        induction ds with
        | nil =>
            intro st st1 h hinv
            rw [List.foldlM_nil, exceptPure] at h
            simp only [Except.ok.injEq] at h
            subst h
            exact ⟨hinv, rfl, ⟨[], by simp⟩, by simp⟩
        | cons d ds ihds =>
            intro st st1 h hinv
            rw [List.foldlM_cons] at h
            cases hv : visit graph n d st with
            | error e => rw [hv, exceptBind_error] at h; simp at h
            | ok s1 =>
                rw [hv, exceptBind_ok] at h
                obtain ⟨hinv1, htemp1, ⟨ext1, hord1⟩, hd1⟩ := ih d st s1 hv hinv
                obtain ⟨hinv2, htemp2, ⟨ext2, hord2⟩, hds2⟩ :=
                  ihds s1 st1 h hinv1
                refine ⟨hinv2, by rw [htemp2, htemp1],
                  ⟨ext1 ++ ext2, by rw [hord2, hord1, List.append_assoc]⟩, ?_⟩
                intro x hx
                rcases List.mem_cons.mp hx with rfl | hx
                · rw [hord2]
                  exact List.mem_append.mpr (Or.inl hd1)
                · exact hds2 x hx
      intro id st st1 h hinv
      rw [visit_succ] at h
      by_cases h1 : id ∈ st.temp
      · rw [if_pos h1] at h; simp at h
      · rw [if_neg h1] at h
        by_cases h2 : id ∈ st.visited
        · rw [if_pos h2] at h
          simp only [Except.ok.injEq] at h
          subst h
          exact ⟨hinv, rfl, ⟨[], by simp⟩, by rw [← hinv.ve]; exact h2⟩
        · rw [if_neg h2] at h
          have hidord : id ∉ st.order := by rw [← hinv.ve]; exact h2
          have hinv1 : TopoInv graph { st with temp := id :: st.temp } := by
            refine ⟨hinv.ve, hinv.nd, ?_, ?_, hinv.closed⟩
            · exact List.nodup_cons.mpr ⟨h1, hinv.tnd⟩
            · intro x hx
              rcases List.mem_cons.mp hx with rfl | hx
              · exact hidord
              · exact hinv.disj x hx
          cases hf : (graphGet graph id).foldlM (fun s d => visit graph n d s)
              { st with temp := id :: st.temp } with
          | error e => rw [hf, exceptBind_error] at h; simp at h
          | ok s2 =>
              rw [hf, exceptBind_ok] at h
              simp only [Except.ok.injEq] at h
              obtain ⟨hinv2, htemp2, ⟨ext2, hord2⟩, hdeps⟩ := fold _ _ _ hf hinv1
              have htemp2' : s2.temp = id :: st.temp := htemp2
              have hidord2 : id ∉ s2.order :=
                hinv2.disj id (by rw [htemp2']; exact List.mem_cons_self id st.temp)
              subst h
              refine ⟨?_, ?_, ?_, ?_⟩
              · refine ⟨?_, ?_, ?_, ?_, ?_⟩
                · show s2.visited ++ [id] = s2.order ++ [id]
                  rw [hinv2.ve]
                · show (s2.order ++ [id]).Nodup
                  refine List.nodup_append.mpr
                    ⟨hinv2.nd, List.nodup_singleton id, ?_⟩
                  intro x hx hx2
                  rw [List.mem_singleton.mp hx2] at hx
                  exact hidord2 hx
                · show (s2.temp.erase id).Nodup
                  rw [htemp2', List.erase_cons_head]
                  exact hinv.tnd
                · show ∀ x ∈ s2.temp.erase id, x ∉ s2.order ++ [id]
                  rw [htemp2', List.erase_cons_head]
                  intro x hx hmem
                  have hxs2 : x ∈ s2.temp := by
                    rw [htemp2']
                    exact List.mem_cons_of_mem id hx
                  rcases List.mem_append.mp hmem with hmem | hmem
                  · exact hinv2.disj x hxs2 hmem
                  · rw [List.mem_singleton.mp hmem] at hx
                    exact h1 hx
                · show ∀ a ∈ s2.order ++ [id], ∀ d ∈ graphGet graph a,
                    d ∈ s2.order ++ [id] ∧
                      (s2.order ++ [id]).indexOf d < (s2.order ++ [id]).indexOf a
                  intro a ha d hd
                  rcases List.mem_append.mp ha with ha | ha
                  · obtain ⟨hdm, hlt⟩ := hinv2.closed a ha d hd
                    refine ⟨List.mem_append.mpr (Or.inl hdm), ?_⟩
                    rw [List.indexOf_append_of_mem hdm,
                      List.indexOf_append_of_mem ha]
                    exact hlt
                  · rw [List.mem_singleton.mp ha] at hd ⊢
                    have hdm : d ∈ s2.order := hdeps d hd
                    refine ⟨List.mem_append.mpr (Or.inl hdm), ?_⟩
                    rw [List.indexOf_append_of_mem hdm,
                      List.indexOf_append_of_not_mem hidord2,
                      List.indexOf_cons_self]
                    have := List.indexOf_lt_length.mpr hdm
                    omega
              · show s2.temp.erase id = st.temp
                rw [htemp2', List.erase_cons_head]
              · refine ⟨ext2 ++ [id], ?_⟩
                show s2.order ++ [id] = st.order ++ (ext2 ++ [id])
                rw [hord2, List.append_assoc]
              · show id ∈ s2.order ++ [id]
                exact List.mem_append.mpr (Or.inr (by simp))



lemma tempMeasure_lt_topoFuel (graph : List (String × List String))
    (st : TopoState) : tempMeasure graph st < topoFuel graph := by
  have h1 : tempMeasure graph st ≤ (usedIds graph).toFinset.card :=
    Finset.card_le_card Finset.sdiff_subset
  have h2 : (usedIds graph).toFinset.card ≤ (usedIds graph).length :=
    List.toFinset_card_le _
  have h3 : (usedIds graph).length
      = graph.length + (graph.map (fun p => p.2.length)).sum := by
    unfold usedIds dictKeys
    rw [List.length_append, List.length_map, List.length_flatten, List.map_map]
    rfl
  unfold topoFuel
  omega

lemma outer_fold_sound (graph : List (String × List String)) :
    ∀ (entries : List (String × List String)) (st st1 : TopoState),
    entries.foldlM
        (fun s p =>
          if p.1 ∈ s.visited then Except.ok s
          else visit graph (topoFuel graph) p.1 s) st = Except.ok st1 →
    TopoInv graph st →
    TopoInv graph st1 ∧ (∃ ext, st1.order = st.order ++ ext) ∧
      ∀ p ∈ entries, p.1 ∈ st1.order := by
  intro entries
  induction entries with
  | nil =>
      intro st st1 h hinv
      rw [List.foldlM_nil, exceptPure] at h
      simp only [Except.ok.injEq] at h
      subst h
      exact ⟨hinv, ⟨[], by simp⟩, by simp⟩
  | cons q qs ih =>
      intro st st1 h hinv
      rw [List.foldlM_cons] at h
      by_cases hq : q.1 ∈ st.visited
      · rw [if_pos hq, exceptBind_ok] at h
        obtain ⟨hinv2, ⟨ext2, hord2⟩, hqs⟩ := ih st st1 h hinv
        refine ⟨hinv2, ⟨ext2, hord2⟩, ?_⟩
        intro p hp
        rcases List.mem_cons.mp hp with rfl | hp
        · rw [hord2]
          exact List.mem_append.mpr (Or.inl (by rw [← hinv.ve]; exact hq))
        · exact hqs p hp
      · rw [if_neg hq] at h
        cases hv : visit graph (topoFuel graph) q.1 st with
        | error e => rw [hv, exceptBind_error] at h; simp at h
        | ok s1 =>
            rw [hv, exceptBind_ok] at h
            obtain ⟨hinv1, _, ⟨ext1, hord1⟩, hq1⟩ :=
              visit_sound graph (topoFuel graph) q.1 st s1 hv hinv
            obtain ⟨hinv2, ⟨ext2, hord2⟩, hqs⟩ := ih s1 st1 h hinv1
            refine ⟨hinv2,
              ⟨ext1 ++ ext2, by rw [hord2, hord1, List.append_assoc]⟩, ?_⟩
            intro p hp
            rcases List.mem_cons.mp hp with rfl | hp
            · rw [hord2]
              exact List.mem_append.mpr (Or.inl hq1)
            · exact hqs p hp

lemma outer_fold_error_msg (graph : List (String × List String)) :
    ∀ (entries : List (String × List String)) (st : TopoState) (e : String),
    entries.foldlM
        (fun s p =>
          if p.1 ∈ s.visited then Except.ok s
          else visit graph (topoFuel graph) p.1 s) st = Except.error e →
    e = "fuel exhausted" ∨ e = "Circular dependency detected" := by
  intro entries
  induction entries with
  | nil => intro st e h; rw [List.foldlM_nil, exceptPure] at h; simp at h
  | cons q qs ih =>
      intro st e h
      rw [List.foldlM_cons] at h
      by_cases hq : q.1 ∈ st.visited
      · rw [if_pos hq, exceptBind_ok] at h
        exact ih st e h
      · rw [if_neg hq] at h
        cases hv : visit graph (topoFuel graph) q.1 st with
        | error e2 =>
            rw [hv, exceptBind_error] at h
            simp only [Except.error.injEq] at h
            exact h ▸ visit_error_msg graph (topoFuel graph) q.1 st e2 hv
        | ok s1 =>
            rw [hv, exceptBind_ok] at h
            exact ih s1 e h

lemma outer_fold_not_fuel (graph : List (String × List String)) :
    ∀ (entries : List (String × List String)) (st : TopoState),
    (∀ p ∈ entries, p.1 ∈ usedIds graph) →
    entries.foldlM
        (fun s p =>
          if p.1 ∈ s.visited then Except.ok s
          else visit graph (topoFuel graph) p.1 s) st
      ≠ Except.error "fuel exhausted" := by
  intro entries
  induction entries with
  | nil => intro st _ h; rw [List.foldlM_nil, exceptPure] at h; simp at h
  | cons q qs ih =>
      intro st hent h
      rw [List.foldlM_cons] at h
      by_cases hq : q.1 ∈ st.visited
      · rw [if_pos hq, exceptBind_ok] at h
        exact ih st (fun p hp => hent p (by simp [hp])) h
      · rw [if_neg hq] at h
        cases hv : visit graph (topoFuel graph) q.1 st with
        | error e2 =>
            rw [hv, exceptBind_error] at h
            simp only [Except.error.injEq] at h
            exact visit_not_fuel graph (topoFuel graph) q.1 st
              (hent q (by simp)) (tempMeasure_lt_topoFuel graph st)
              (by rw [hv, h])
        | ok s1 =>
            rw [hv, exceptBind_ok] at h
            exact ih s1 (fun p hp => hent p (by simp [hp])) h

lemma topo_ok_sound (graph : List (String × List String)) (ord : List String)
    (h : _topological_sort graph = Except.ok ord) :
    ∃ st : TopoState, st.order.reverse = ord ∧ TopoInv graph st ∧
      ∀ p ∈ graph, p.1 ∈ st.order := by
  unfold _topological_sort at h
  cases hf : graph.foldlM
      (fun s p =>
        if p.1 ∈ s.visited then Except.ok s
        else visit graph (topoFuel graph) p.1 s)
      (⟨[], [], []⟩ : TopoState) with
  | error e => rw [hf, exceptBind_error] at h; simp at h
  | ok st =>
      rw [hf, exceptBind_ok] at h
      simp only [Except.ok.injEq] at h
      obtain ⟨hinv, _, hkeys⟩ := outer_fold_sound graph graph _ st hf
        ⟨rfl, List.nodup_nil, List.nodup_nil, by simp, by simp⟩
      exact ⟨st, h, hinv, hkeys⟩

lemma topo_error_sound (graph : List (String × List String)) (e : String)
    (h : _topological_sort graph = Except.error e) :
    e = "Circular dependency detected" := by
  unfold _topological_sort at h
  cases hf : graph.foldlM
      (fun s p =>
        if p.1 ∈ s.visited then Except.ok s
        else visit graph (topoFuel graph) p.1 s)
      (⟨[], [], []⟩ : TopoState) with
  | ok st => rw [hf, exceptBind_ok] at h; simp at h
  | error e2 =>
      rw [hf, exceptBind_error] at h
      simp only [Except.error.injEq] at h
      subst h
      rcases outer_fold_error_msg graph graph _ e2 hf with he | he
      · exact absurd (he ▸ hf)
          (outer_fold_not_fuel graph graph _ (key_mem_usedIds graph))
      · exact he



lemma chain_indexOf_lt (graph : List (String × List String))
    (ord : List String)
    (closed : ∀ a ∈ ord, ∀ d ∈ graphGet graph a,
      d ∈ ord ∧ ord.indexOf d < ord.indexOf a) :
    ∀ (l : List String) (x : String), x ∈ ord →
      List.Chain (edgeTo graph) x l → ∀ hne : l ≠ [],
      (l.getLast hne) ∈ ord ∧
        ord.indexOf (l.getLast hne) < ord.indexOf x := by
  intro l
  induction l with
  | nil => intro x _ _ hne; exact absurd rfl hne
  | cons d rest ihl =>
      intro x hx hch hne
      rw [List.chain_cons] at hch
      obtain ⟨hedge, hch2⟩ := hch
      obtain ⟨hdmem, hdlt⟩ := closed x hx d hedge
      by_cases hr : rest = []
      · subst hr
        exact ⟨hdmem, hdlt⟩
      · rw [List.getLast_cons hr]
        obtain ⟨hm, hlt⟩ := ihl d hdmem hch2 hr
        exact ⟨hm, lt_trans hlt hdlt⟩

lemma not_hasCycle_of_ok (graph : List (String × List String))
    (ord : List String) (h : _topological_sort graph = Except.ok ord) :
    ¬ hasCycle graph := by
  rintro ⟨a, p, hch⟩
  obtain ⟨st, _, hinv, hkeys⟩ := topo_ok_sound graph ord h
  have hfirst : ∃ d, edgeTo graph a d := by
    cases hpa : p ++ [a] with
    | nil => exact absurd hpa (by simp)
    | cons d rest =>
        rw [hpa, List.chain_cons] at hch
        exact ⟨d, hch.1⟩
  obtain ⟨d0, hd0⟩ := hfirst
  have hak : a ∈ dictKeys graph := edge_source_mem_keys graph a d0 hd0
  have haord : a ∈ st.order := by
    obtain ⟨q, hq, hq1⟩ := List.mem_map.mp hak
    exact hq1 ▸ hkeys q hq
  have hfin := chain_indexOf_lt graph st.order hinv.closed (p ++ [a]) a haord
    hch (by simp)
  rw [List.getLast_append_singleton] at hfin
  exact lt_irrefl _ hfin.2

/-- C4 (amended): for every task set whose dependency relation contains a
cycle, `order(tasks)` fails — no partial order is returned — and the error
is the fixed message `"Circular dependency detected"`, the same for every
input, which names no task on the offending cycle. -/
theorem topo_cycle_fixed_error (graph : List (String × List String))
    (hcyc : hasCycle graph) :
    _topological_sort graph = Except.error "Circular dependency detected" := by
  cases h : _topological_sort graph with
  | ok ord => exact absurd hcyc (not_hasCycle_of_ok graph ord h)
  | error e => rw [topo_error_sound graph e h]

/-- Witness for `topo_cycle_fixed_error` at the two-task cycle `x ↔ y`. -/
theorem topo_cycle_fixed_error_witness :
    _topological_sort [("x", ["y"]), ("y", ["x"])]
      = Except.error "Circular dependency detected" :=
  topo_cycle_fixed_error [("x", ["y"]), ("y", ["x"])]
    ⟨"x", ["y"], List.Chain.cons (by decide)
      (List.Chain.cons (by decide) List.Chain.nil)⟩

/-- C6 (amended): `order(tasks)` never fails on account of a dangling
dependency id — the only possible failure is the fixed cycle message — and
whenever it returns an order, every dependency id of every task, dangling
or not, is silently included in that order. -/
theorem topo_never_unknown_dep (graph : List (String × List String)) :
    (∀ e, _topological_sort graph = Except.error e →
      e = "Circular dependency detected") ∧
    (∀ ord, _topological_sort graph = Except.ok ord →
      ∀ a ∈ dictKeys graph, a ∈ ord ∧ ∀ d ∈ graphGet graph a, d ∈ ord) := by
  constructor
  · intro e h
    exact topo_error_sound graph e h
  · intro ord h a ha
    obtain ⟨st, hrev, hinv, hkeys⟩ := topo_ok_sound graph ord h
    obtain ⟨q, hq, hq1⟩ := List.mem_map.mp ha
    have haord : a ∈ st.order := hq1 ▸ hkeys q hq
    subst hrev
    refine ⟨List.mem_reverse.mpr haord, ?_⟩
    intro d hd
    exact List.mem_reverse.mpr (hinv.closed a haord d hd).1

/-- Witness for `topo_never_unknown_dep` at the one-task graph with the
dangling dependency `q`. -/
theorem topo_never_unknown_dep_witness :
    "p" ∈ ["p", "q"] ∧ ∀ d ∈ graphGet [("p", ["q"])] "p", d ∈ ["p", "q"] :=
  (topo_never_unknown_dep [("p", ["q"])]).2 ["p", "q"] rfl "p" (by decide)

/-! ## Association-list (Python dict) lemmas -/

lemma dictFind?_dictSet_self {α : Type} (d : List (String × α)) (k : String)
    (v : α) : dictFind? (dictSet d k v) k = some v := by
  induction d with
  | nil => simp [dictFind?, dictSet, List.find?]
  | cons p rest ih =>
      obtain ⟨k1, v1⟩ := p
      by_cases h : k1 = k
      · simp [dictSet, h, dictFind?, List.find?]
      · simp only [dictSet, if_neg h]
        simp [dictFind?, List.find?, beq_eq_false_iff_ne.mpr h] at ih ⊢
        exact ih

lemma dictFind?_dictSet_ne {α : Type} (d : List (String × α)) (k : String)
    (v : α) (j : String) (h : j ≠ k) :
    dictFind? (dictSet d k v) j = dictFind? d j := by
  induction d with
  | nil => simp [dictFind?, dictSet, List.find?, beq_eq_false_iff_ne.mpr (Ne.symm h)]
  | cons p rest ih =>
      obtain ⟨k1, v1⟩ := p
      by_cases hk : k1 = k
      · subst hk
        simp [dictSet, dictFind?, List.find?, beq_eq_false_iff_ne.mpr (Ne.symm h)]
      · simp only [dictSet, if_neg hk]
        by_cases hj : k1 = j
        · simp [dictFind?, List.find?, hj]
        · simp [dictFind?, List.find?, beq_eq_false_iff_ne.mpr hj] at ih ⊢
          exact ih

lemma dictFind?_isSome_iff {α : Type} (d : List (String × α)) (k : String) :
    (dictFind? d k).isSome = true ↔ k ∈ dictKeys d := by
  induction d with
  | nil => simp [dictFind?, dictKeys, List.find?]
  | cons p rest ih =>
      obtain ⟨k1, v1⟩ := p
      by_cases h : k1 = k
      · simp [dictFind?, dictKeys, List.find?, h]
      · simp [dictFind?, dictKeys, List.find?, beq_eq_false_iff_ne.mpr h,
          Ne.symm h, ih]

/-! ## Claims about the schedule store -/

/-- A sample task for concrete witnesses. -/
def sampleTask (id : String) (p : Int) (due : Int) : Task :=
  { id := id, title := id, description := "", priority := p, due_date := due,
    status := "pending", assigned_to := "", dependencies := [] }

/-- A sequence of further `add` calls applied to the store. -/
def applyAdds (ts : List Task) (s : SchedulerAgent) : SchedulerAgent :=
  ts.foldl (fun s t => (add_task s t).2) s

lemma add_task_preserves_lookup (s : SchedulerAgent) (t : Task) (j : String)
    (u : Task) (h : dictFind? s.tasks j = some u) :
    dictFind? (add_task s t).2.tasks j = some u := by
  unfold add_task
  by_cases hid : (dictFind? s.tasks t.id).isSome
  · simp [hid, h]
  · have hne : j ≠ t.id := by
      intro e
      subst e
      rw [h] at hid
      simp at hid
    simp only [hid, Bool.false_eq_true, if_false, if_neg]
    simp [dictFind?_dictSet_ne s.tasks t.id t j hne, h]

lemma applyAdds_preserves_lookup (ts : List Task) (s : SchedulerAgent)
    (j : String) (u : Task) (h : dictFind? s.tasks j = some u) :
    dictFind? (applyAdds ts s).tasks j = some u := by
  induction ts generalizing s with
  | nil => exact h
  | cons t ts ih =>
      exact ih (add_task s t).2 (add_task_preserves_lookup s t j u h)

/-- C7: after a successful `add` of `t0`, and any further sequence of `add`
calls, the store still maps `t0.id` to the original task `t0`, and a fresh
`add` reusing that id fails (returns `false`, the `DuplicateTaskId`
failure) leaving the whole store unchanged. -/
theorem add_task_duplicate_unchanged (s : SchedulerAgent) (t0 : Task)
    (s1 : SchedulerAgent) (h : add_task s t0 = (true, s1)) (ts : List Task)
    (t : Task) (hid : t.id = t0.id) :
    dictFind? (applyAdds ts s1).tasks t0.id = some t0 ∧
    add_task (applyAdds ts s1) t = (false, applyAdds ts s1) := by
  unfold add_task at h
  by_cases hs : (dictFind? s.tasks t0.id).isSome
  · simp [hs] at h
  · simp only [hs, Bool.false_eq_true, if_false, if_neg, Prod.mk.injEq,
      true_and] at h
    have h1 : dictFind? s1.tasks t0.id = some t0 := by
      rw [← h]
      simpa using dictFind?_dictSet_self s.tasks t0.id t0
    have h2 := applyAdds_preserves_lookup ts s1 t0.id t0 h1
    refine ⟨h2, ?_⟩
    unfold add_task
    rw [hid, h2]
    simp

/-- The store holding just `t1`, as produced by a first successful add. -/
def dupStore : SchedulerAgent :=
  ⟨[("t1", sampleTask "t1" 1 0)], [], []⟩

/-- Witness for `add_task_duplicate_unchanged`: add `t1`, then `t2`, then
try to add a different task reusing id `t1`. -/
theorem add_task_duplicate_unchanged_witness :
    dictFind? (applyAdds [sampleTask "t2" 2 0] dupStore).tasks "t1"
      = some (sampleTask "t1" 1 0) ∧
    add_task (applyAdds [sampleTask "t2" 2 0] dupStore) (sampleTask "t1" 3 5)
      = (false, applyAdds [sampleTask "t2" 2 0] dupStore) :=
  add_task_duplicate_unchanged ⟨[], [], []⟩ (sampleTask "t1" 1 0) dupStore rfl
    [sampleTask "t2" 2 0] (sampleTask "t1" 3 5) rfl

/-- C8: `optimize_schedule` run twice with no intervening mutation returns
the identical schedule both times (and the identical store): the operation
reads only `tasks` and `agents`, which it does not modify. -/
theorem optimize_schedule_idempotent (s : SchedulerAgent) :
    (optimize_schedule (optimize_schedule s).2).1 = (optimize_schedule s).1 ∧
    (optimize_schedule (optimize_schedule s).2).2 = (optimize_schedule s).2 :=
  ⟨rfl, rfl⟩

/-- C9: a successful `assign_task` returns `true` and rewrites exactly the
`assigned_to` field of the named task (so its `status` and every other
field keep their values), leaves every other task's lookup unchanged, and
does not touch the agent roster or the stored schedule. -/
theorem assign_task_frame (s : SchedulerAgent) (task_id agent_id : String)
    (t : Task) (ht : dictFind? s.tasks task_id = some t)
    (ha : agent_id ∈ s.agents) :
    (assign_task s task_id agent_id).1 = true ∧
    dictFind? (assign_task s task_id agent_id).2.tasks task_id
      = some { t with assigned_to := agent_id } ∧
    ({ t with assigned_to := agent_id } : Task).status = t.status ∧
    (∀ j, j ≠ task_id →
      dictFind? (assign_task s task_id agent_id).2.tasks j
        = dictFind? s.tasks j) ∧
    (assign_task s task_id agent_id).2.agents = s.agents ∧
    (assign_task s task_id agent_id).2.current_schedule
      = s.current_schedule := by
  have heq : assign_task s task_id agent_id
      = (true,
          { s with
            tasks := dictSet s.tasks task_id
              { t with assigned_to := agent_id } }) := by
    unfold assign_task
    rw [ht]
    simp [ha]
  rw [heq]
  exact ⟨rfl, dictFind?_dictSet_self s.tasks task_id _, rfl,
    fun j hj => dictFind?_dictSet_ne s.tasks task_id _ j hj, rfl, rfl⟩

/-- A one-task, one-agent store for the `assign_task` witness. -/
def frameStore : SchedulerAgent :=
  ⟨[("t", sampleTask "t" 2 7)], ["a1"], []⟩

/-- Witness for `assign_task_frame` on a one-task, one-agent store. -/
theorem assign_task_frame_witness :
    (assign_task frameStore "t" "a1").1 = true ∧
    dictFind? (assign_task frameStore "t" "a1").2.tasks "t"
      = some { sampleTask "t" 2 7 with assigned_to := "a1" } ∧
    ({ sampleTask "t" 2 7 with assigned_to := "a1" } : Task).status
      = (sampleTask "t" 2 7).status ∧
    (∀ j, j ≠ "t" →
      dictFind? (assign_task frameStore "t" "a1").2.tasks j
        = dictFind? frameStore.tasks j) ∧
    (assign_task frameStore "t" "a1").2.agents = frameStore.agents ∧
    (assign_task frameStore "t" "a1").2.current_schedule
      = frameStore.current_schedule :=
  assign_task_frame frameStore "t" "a1" (sampleTask "t" 2 7) rfl (by simp [frameStore])

/-! ## Claims about the availability computer -/

/-- The sweep of `get_availability` is sound when its input is already in
order: every emitted slot starts at or after the cursor, is nonempty, ends
by `wEnd`, and is disjoint from every busy slot. -/
lemma availabilitySweep_sound (busy : List TimeSlot) (cur wEnd : Int)
    (hne : ∀ b ∈ busy, b.start_time ≤ b.end_time)
    (hcur : ∀ b ∈ busy, cur ≤ b.start_time)
    (hwE : ∀ b ∈ busy, b.end_time ≤ wEnd)
    (hsep : busy.Pairwise (fun x y => x.end_time ≤ y.start_time)) :
    ∀ f ∈ availabilitySweep busy cur wEnd,
      cur ≤ f.start_time ∧ f.start_time < f.end_time ∧ f.end_time ≤ wEnd ∧
      ∀ b ∈ busy, f.end_time ≤ b.start_time ∨ b.end_time ≤ f.start_time := by
  induction busy generalizing cur with
  | nil =>
      intro f hf
      unfold availabilitySweep at hf
      by_cases h : cur < wEnd
      · simp [h] at hf
        subst hf
        simp [h]
      · simp [h] at hf
  | cons b rest ih =>
      intro f hf
      unfold availabilitySweep at hf
      rw [List.mem_append] at hf
      have hb1 : b.start_time ≤ b.end_time := hne b (by simp)
      have hb2 : cur ≤ b.start_time := hcur b (by simp)
      have hb3 : b.end_time ≤ wEnd := hwE b (by simp)
      have hsep1 : ∀ y ∈ rest, b.end_time ≤ y.start_time :=
        (List.pairwise_cons.mp hsep).1
      rcases hf with hf | hf
      · by_cases h : cur < b.start_time
        · simp [h] at hf
          subst hf
          refine ⟨le_refl _, h, le_trans hb1 hb3, ?_⟩
          intro c hc
          rcases List.mem_cons.mp hc with rfl | hc
          · exact Or.inl (le_refl _)
          · exact Or.inl (le_trans hb1 (hsep1 c hc))
        · simp [h] at hf
      · have hrec := ih b.end_time
          (fun c hc => hne c (by simp [hc]))
          (fun c hc => hsep1 c hc)
          (fun c hc => hwE c (by simp [hc]))
          (List.pairwise_cons.mp hsep).2
          f hf
        obtain ⟨h1, h2, h3, h4⟩ := hrec
        refine ⟨le_trans (le_trans hb2 hb1) h1, h2, h3, ?_⟩
        intro c hc
        rcases List.mem_cons.mp hc with rfl | hc
        · exact Or.inr h1
        · exact h4 c hc

/-- C2 (amended): `get_availability` neither sorts the busy slots nor
advances its cursor with a `max` — it relies on the calendar API returning
them ordered.  Provided the busy slots are already sorted and pairwise
non-overlapping (each ends no later than the next starts; back-to-back
allowed) and lie inside the window, every emitted free slot lies within
`[wS, wE)` and intersects no busy slot; the claim's concrete merge example
holds. -/
theorem availability_sound_when_sorted (wS wE : Int) (busy : List TimeSlot)
    (hne : ∀ b ∈ busy, b.start_time ≤ b.end_time)
    (hwin : ∀ b ∈ busy, wS ≤ b.start_time ∧ b.end_time ≤ wE)
    (hsep : busy.Pairwise (fun x y => x.end_time ≤ y.start_time)) :
    (∀ f ∈ get_availability wS wE busy,
      wS ≤ f.start_time ∧ f.start_time < f.end_time ∧ f.end_time ≤ wE ∧
      ∀ b ∈ busy, ¬ slotsOverlap f b) ∧
    get_availability 0 600 [⟨120, 180, false⟩, ⟨300, 360, false⟩]
      = [⟨0, 120, true⟩, ⟨180, 300, true⟩, ⟨360, 600, true⟩] := by
  constructor
  · intro f hf
    obtain ⟨h1, h2, h3, h4⟩ := availabilitySweep_sound busy wS wE hne
      (fun b hb => (hwin b hb).1) (fun b hb => (hwin b hb).2) hsep f hf
    refine ⟨h1, h2, h3, fun b hb => ?_⟩
    rcases h4 b hb with h | h
    · exact not_lt.mpr
        (le_trans (min_le_left _ _) (le_trans h (le_max_right _ _)))
    · exact not_lt.mpr
        (le_trans (min_le_right _ _) (le_trans h (le_max_left _ _)))
  · decide

/-- C2 counterexample: with overlapping busy slots `[120,300)` and
`[180,240)` (already sorted by start), the cursor is set to `240 < 300` —
not `max(cursor, end) = 300` — so the emitted "free" slot `[240,600)`
overlaps the busy slot `[120,300)`, refuting the claim for overlapping
inputs. -/
theorem availability_overlap_counterexample :
    get_availability 0 600 [⟨120, 300, false⟩, ⟨180, 240, false⟩]
      = [⟨0, 120, true⟩, ⟨240, 600, true⟩] ∧
    ⟨240, 600, true⟩ ∈ get_availability 0 600
      [⟨120, 300, false⟩, ⟨180, 240, false⟩] ∧
    slotsOverlap ⟨240, 600, true⟩ ⟨120, 300, false⟩ :=
  ⟨by decide, by decide, by decide⟩

/-- Witness for `availability_sound_when_sorted` at the claim's example. -/
theorem availability_sound_when_sorted_witness :
    get_availability 0 600 [⟨120, 180, false⟩, ⟨300, 360, false⟩]
      = [⟨0, 120, true⟩, ⟨180, 300, true⟩, ⟨360, 600, true⟩] :=
  (availability_sound_when_sorted 0 600 [⟨120, 180, false⟩, ⟨300, 360, false⟩]
    (by decide) (by decide) (by decide)).2

/-- The scan of `find_next_available_slot` is `List.find?` followed by
clipping to the requested duration. -/
lemma firstSlotScan_eq_find (duration : Int) (slots : List TimeSlot) :
    firstSlotScan duration slots =
      (slots.find? (fun s => decide (duration ≤ s.end_time - s.start_time))).map
        (fun s => ⟨s.start_time, s.start_time + duration, true⟩) := by
  induction slots with
  | nil => rfl
  | cons s rest ih =>
      by_cases h : duration ≤ s.end_time - s.start_time
      · simp [firstSlotScan, List.find?, h]
      · simp [firstSlotScan, List.find?, h, ih]

/-- C5: for positive durations, `find_next_available_slot` returns the
first free slot of the window (in chronological order) whose length is at
least `duration`, clipped to `[start, start + duration)`; it returns `none`
when no free slot is long enough; and the claim's 90-minute example yields
`[00:00, 01:30)`. -/
theorem find_next_slot_first_fit (duration : Int) (hd : 0 < duration)
    (start_from : Int) (busy : List TimeSlot) :
    (find_next_available_slot duration start_from busy =
      ((get_availability start_from (start_from + 10080) busy).find?
          (fun s => decide (duration ≤ s.end_time - s.start_time))).map
        (fun s => ⟨s.start_time, s.start_time + duration, true⟩)) ∧
    ((∀ s ∈ get_availability start_from (start_from + 10080) busy,
        s.end_time - s.start_time < duration) →
      find_next_available_slot duration start_from busy = none) ∧
    find_next_available_slot 90 0 [⟨120, 180, false⟩, ⟨300, 360, false⟩]
      = some ⟨0, 90, true⟩ := by
  refine ⟨firstSlotScan_eq_find duration _, ?_, by decide⟩
  intro h
  have hnone : (get_availability start_from (start_from + 10080) busy).find?
      (fun s => decide (duration ≤ s.end_time - s.start_time)) = none := by
    rw [List.find?_eq_none]
    intro s hs
    simp [not_le.mpr (h s hs)]
  rw [show find_next_available_slot duration start_from busy
      = firstSlotScan duration
          (get_availability start_from (start_from + 10080) busy) from rfl,
    firstSlotScan_eq_find, hnone]
  rfl

/-- Witness for `find_next_slot_first_fit` at the claim's example. -/
theorem find_next_slot_first_fit_witness :
    find_next_available_slot 90 0 [⟨120, 180, false⟩, ⟨300, 360, false⟩]
      = some ⟨0, 90, true⟩ :=
  (find_next_slot_first_fit 90 (by decide) 0
    [⟨120, 180, false⟩, ⟨300, 360, false⟩]).2.2

/-! ## Claims about the stored per-agent schedule -/

lemma mem_dictKeys_dictSet {α : Type} (d : List (String × α)) (k : String)
    (v : α) (j : String) :
    j ∈ dictKeys (dictSet d k v) ↔ j = k ∨ j ∈ dictKeys d := by
  induction d with
  | nil => simp [dictSet, dictKeys]
  | cons p rest ih =>
      obtain ⟨k1, v1⟩ := p
      by_cases h : k1 = k
      · subst h
        simp [dictSet, dictKeys]
      · simp [dictSet, h, dictKeys] at ih ⊢
        tauto

lemma dictFind?_schedule_fold (s : SchedulerAgent) (rest : List String)
    (acc : List (String × List Task)) (a : String) (l : List Task)
    (h : dictFind? (rest.foldl
        (fun sch ag => dictSet sch ag (agentSortedTasks s ag)) acc) a
      = some l) :
    (a ∈ rest ∧ l = agentSortedTasks s a) ∨ dictFind? acc a = some l := by
  induction rest generalizing acc with
  | nil => exact Or.inr h
  | cons b rs ih =>
      rcases ih (dictSet acc b (agentSortedTasks s b)) h with h1 | h1
      · exact Or.inl ⟨by simp [h1.1], h1.2⟩
      · by_cases hab : a = b
        · subst hab
          rw [dictFind?_dictSet_self] at h1
          exact Or.inl ⟨by simp, (Option.some.inj h1).symm⟩
        · rw [dictFind?_dictSet_ne _ _ _ _ hab] at h1
          exact Or.inr h1

lemma mem_dictKeys_schedule_fold (s : SchedulerAgent) (rest : List String)
    (acc : List (String × List Task)) (a : String) :
    a ∈ dictKeys (rest.foldl
        (fun sch ag => dictSet sch ag (agentSortedTasks s ag)) acc)
      ↔ a ∈ dictKeys acc ∨ a ∈ rest := by
  induction rest generalizing acc with
  | nil => simp
  | cons b rs ih =>
      rw [List.foldl_cons, ih, mem_dictKeys_dictSet]
      simp
      tauto

/-- C10 (amended): after `optimize_schedule`, the schedule's keys are
exactly the registered agents, and every task in an agent's list is
assigned to that (registered) agent — so a task whose assigned id is not a
registered agent appears in no list.  A task with an *empty* assigned id is
excluded only when the empty string is not itself a registered agent id
(see `empty_agent_id_counterexample`). -/
theorem optimize_schedule_agent_keys (s : SchedulerAgent) :
    (∀ a, a ∈ dictKeys (optimize_schedule s).1 ↔ a ∈ s.agents) ∧
    (∀ a t, t ∈ get_agent_schedule (optimize_schedule s).2 a →
      a ∈ s.agents ∧ t.assigned_to = a) ∧
    (∀ t a, t.assigned_to ∉ s.agents →
      t ∉ get_agent_schedule (optimize_schedule s).2 a) := by
  have key : ∀ a t, t ∈ get_agent_schedule (optimize_schedule s).2 a →
      a ∈ s.agents ∧ t.assigned_to = a := by
    intro a t ht
    unfold get_agent_schedule at ht
    cases hfd : dictFind? (optimize_schedule s).2.current_schedule a with
    | none => rw [hfd] at ht; simp at ht
    | some l =>
        rw [hfd] at ht
        simp only [Option.getD_some] at ht
        have hfd2 : dictFind? (s.agents.foldl
            (fun sch ag => dictSet sch ag (agentSortedTasks s ag)) []) a
            = some l := hfd
        rcases dictFind?_schedule_fold s s.agents [] a l hfd2 with h1 | h1
        · obtain ⟨ha, rfl⟩ := h1
          unfold agentSortedTasks at ht
          rw [List.mem_insertionSort, List.mem_filter] at ht
          exact ⟨ha, by simpa using ht.2⟩
        · simp [dictFind?] at h1
  refine ⟨?_, key, ?_⟩
  · intro a
    have hrfl : (optimize_schedule s).1 = s.agents.foldl
        (fun sch ag => dictSet sch ag (agentSortedTasks s ag)) [] := rfl
    rw [hrfl, mem_dictKeys_schedule_fold]
    simp [dictKeys]
  · intro t a hna ht
    have h2 := key a t ht
    rw [h2.2] at hna
    exact hna h2.1

/-- A store with one task assigned to the registered agent `a1`. -/
def assignedStore : SchedulerAgent :=
  ⟨[("t", { sampleTask "t" 2 7 with assigned_to := "a1" })], ["a1"], []⟩

/-- Witness for `optimize_schedule_agent_keys` on `assignedStore`. -/
theorem optimize_schedule_agent_keys_witness :
    "a1" ∈ assignedStore.agents ∧
    ({ sampleTask "t" 2 7 with assigned_to := "a1" } : Task).assigned_to
      = "a1" :=
  (optimize_schedule_agent_keys assignedStore).2.1 "a1"
    { sampleTask "t" 2 7 with assigned_to := "a1" } (by decide)

/-- A store whose registered agent id is the empty string, with a task
whose `assigned_to` is empty. -/
def emptyAgentStore : SchedulerAgent :=
  ⟨[("t", { sampleTask "t" 2 7 with assigned_to := "" })], [""], []⟩

/-- C10 counterexample: when the empty string is itself registered as an
agent id (nothing in the code prevents this), a task whose assigned agent
id is empty *does* appear in an agent's list, refuting the claim that such
a task appears in no agent's list. -/
theorem empty_agent_id_counterexample :
    ({ sampleTask "t" 2 7 with assigned_to := "" } : Task).assigned_to = "" ∧
    { sampleTask "t" 2 7 with assigned_to := "" } ∈
      get_agent_schedule (optimize_schedule emptyAgentStore).2 "" :=
  ⟨rfl, by decide⟩

/-! ## Claim about the task distributor -/

lemma optionBind_some {α β : Type} (a : α) (f : α → Option β) :
    (some a >>= f) = f a := rfl

lemma taskWeightSum_append_one (l : List Task) (t : Task) :
    taskWeightSum (l ++ [t]) = taskWeightSum l + t.priority := by
  simp [taskWeightSum]

lemma minFold_proj (xs : List AgentLoad) (x : AgentLoad)
    (hs : ∀ e ∈ x :: xs, taskWeightSum e.assigned = e.weight) :
    List.foldl (fun best y =>
        if taskWeightSum y.2 < taskWeightSum best.2 then y else best)
      (projLoad x) (xs.map projLoad)
      = projLoad (List.foldl
          (fun best y => if y.weight < best.weight then y else best) x xs) := by
  induction xs generalizing x with
  | nil => rfl
  | cons y ys ih =>
      have hx : taskWeightSum x.assigned = x.weight := hs x (by simp)
      have hy : taskWeightSum y.assigned = y.weight := hs y (by simp)
      simp only [List.map_cons, List.foldl_cons]
      by_cases hc : y.weight < x.weight
      · rw [if_pos (by simpa [projLoad, hx, hy] using hc), if_pos hc]
        exact ih y (fun e he => hs e (by
          rcases List.mem_cons.mp he with rfl | he
          · simp
          · simp [he]))
      · rw [if_neg (by simpa [projLoad, hx, hy] using hc), if_neg hc]
        exact ih x (fun e he => hs e (by
          rcases List.mem_cons.mp he with rfl | he
          · simp
          · simp [he]))

lemma minFold_mem (xs : List AgentLoad) (x : AgentLoad) :
    List.foldl (fun best y => if y.weight < best.weight then y else best) x xs
      ∈ x :: xs := by
  induction xs generalizing x with
  | nil => simp
  | cons y ys ih =>
      simp only [List.foldl_cons]
      by_cases hc : y.weight < x.weight
      · rw [if_pos hc]
        exact List.mem_cons_of_mem x (ih y)
      · rw [if_neg hc]
        rcases List.mem_cons.mp (ih x) with h | h
        · rw [h]
          exact List.mem_cons_self x _
        · exact List.mem_cons_of_mem x (List.mem_cons_of_mem y h)

lemma specGiveTask_agents (a : String) (t : Task) (st : List AgentLoad) :
    (specGiveTask a t st).map (fun e => e.agent)
      = st.map (fun e => e.agent) := by
  induction st with
  | nil => rfl
  | cons e rest ih =>
      by_cases h : e.agent = a
      · simp [specGiveTask, h]
      · simp [specGiveTask, h, ih]

lemma specGiveTask_sums (a : String) (t : Task) (st : List AgentLoad)
    (hs : ∀ e ∈ st, taskWeightSum e.assigned = e.weight) :
    ∀ e ∈ specGiveTask a t st, taskWeightSum e.assigned = e.weight := by
  induction st with
  | nil => simp [specGiveTask]
  | cons e rest ih =>
      by_cases h : e.agent = a
      · simp only [specGiveTask, if_pos h]
        intro f hf
        rcases List.mem_cons.mp hf with rfl | hf
        · simp [taskWeightSum_append_one, hs e (by simp)]
        · exact hs f (by simp [hf])
      · simp only [specGiveTask, if_neg h]
        intro f hf
        rcases List.mem_cons.mp hf with rfl | hf
        · exact hs f (by simp)
        · exact ih (fun g hg => hs g (by simp [hg])) f hf

lemma dictSet_map_projLoad (st : List AgentLoad) (m : AgentLoad) (t : Task)
    (hnd : (st.map (fun e => e.agent)).Nodup) (hm : m ∈ st) :
    dictSet (st.map projLoad) m.agent (m.assigned ++ [t])
      = (specGiveTask m.agent t st).map projLoad := by
  induction st with
  | nil => cases hm
  | cons e rest ih =>
      by_cases h : e.agent = m.agent
      · have hem : e = m := by
          rcases List.mem_cons.mp hm with rfl | hm1
          · rfl
          · exfalso
            have : e.agent ∈ rest.map (fun e => e.agent) := by
              rw [h]
              exact List.mem_map.mpr ⟨m, hm1, rfl⟩
            exact (List.nodup_cons.mp hnd).1 this
        subst hem
        simp [List.map_cons, projLoad, dictSet, specGiveTask, h]
      · have hm1 : m ∈ rest := by
          rcases List.mem_cons.mp hm with rfl | hm1
          · exact absurd rfl h
          · exact hm1
        simp only [List.map_cons, projLoad, dictSet, specGiveTask, if_neg h]
        rw [ih (List.nodup_cons.mp hnd).2 hm1]



lemma distribute_loop (ts : List Task) (st : List AgentLoad)
    (hne : st ≠ [])
    (hsum : ∀ e ∈ st, taskWeightSum e.assigned = e.weight)
    (hnd : (st.map (fun e => e.agent)).Nodup) :
    List.foldlM
        (fun workload task =>
          (pyMinByWeight workload).map
            (fun m => dictSet workload m.1 (m.2 ++ [task])))
        (st.map projLoad) ts
      = (List.foldlM specAssignStep st ts).map (List.map projLoad) := by
  induction ts generalizing st with
  | nil => simp
  | cons t ts ih =>
      obtain ⟨x, xs, rfl⟩ := List.exists_cons_of_ne_nil hne
      have hme : List.foldl
          (fun best y => if y.weight < best.weight then y else best) x xs
          ∈ x :: xs := minFold_mem xs x
      have hmin : pyMinByWeight ((x :: xs).map projLoad)
          = some (projLoad (List.foldl
              (fun best y => if y.weight < best.weight then y else best) x xs)) := by
        simp only [List.map_cons, pyMinByWeight]
        rw [minFold_proj xs x hsum]
      have hstep : specAssignStep (x :: xs) t
          = some (specGiveTask (List.foldl
              (fun best y => if y.weight < best.weight then y else best) x xs).agent
              t (x :: xs)) := by
        simp [specAssignStep, specArgmin]
      rw [List.foldlM_cons, List.foldlM_cons, hmin, hstep]
      simp only [Option.map_some', optionBind_some]
      have hset : dictSet ((x :: xs).map projLoad)
          (projLoad (List.foldl
            (fun best y => if y.weight < best.weight then y else best) x xs)).1
          ((projLoad (List.foldl
            (fun best y => if y.weight < best.weight then y else best) x xs)).2
            ++ [t])
          = (specGiveTask (List.foldl
              (fun best y => if y.weight < best.weight then y else best) x xs).agent
              t (x :: xs)).map projLoad :=
        dictSet_map_projLoad (x :: xs) _ t hnd hme
      show List.foldlM _ (dictSet _ _ _) ts = _
      rw [hset]
      exact ih (specGiveTask _ t (x :: xs))
        (by
          intro hc
          have := specGiveTask_agents (List.foldl
            (fun best y => if y.weight < best.weight then y else best) x xs).agent
            t (x :: xs)
          rw [hc] at this
          simp at this)
        (specGiveTask_sums _ t (x :: xs) hsum)
        (by rw [specGiveTask_agents]; exact hnd)



lemma dictSet_absent {α : Type} (d : List (String × α)) (k : String) (v : α)
    (h : k ∉ dictKeys d) : dictSet d k v = d ++ [(k, v)] := by
  induction d with
  | nil => rfl
  | cons p rest ih =>
      obtain ⟨k1, v1⟩ := p
      simp only [dictKeys, List.map_cons, List.mem_cons, not_or] at h
      simp only [dictSet, if_neg (Ne.symm h.1)]
      rw [ih h.2]
      rfl

lemma initWorkload_go (agents : List String) (acc : List (String × List Task))
    (h : ∀ a ∈ agents, a ∉ dictKeys acc) (hnd : agents.Nodup) :
    agents.foldl (fun d a => dictSet d a []) acc
      = acc ++ agents.map (fun a => (a, [])) := by
  induction agents generalizing acc with
  | nil => simp
  | cons a rest ih =>
      rw [List.foldl_cons, dictSet_absent acc a [] (h a (by simp)),
        ih (acc ++ [(a, [])])]
      · simp
      · intro b hb
        have hb1 : b ≠ a := by
          rintro rfl
          exact (List.nodup_cons.mp hnd).1 hb
        have hb2 : b ∉ dictKeys acc := h b (by simp [hb])
        have hkeys : dictKeys (acc ++ [(a, [])]) = dictKeys acc ++ [a] := by
          simp [dictKeys]
        rw [hkeys]
        simp only [List.mem_append, List.mem_singleton, not_or]
        exact ⟨hb2, hb1⟩
      · exact (List.nodup_cons.mp hnd).2

lemma map_agent_mk (agents : List String) :
    (agents.map (fun a => (⟨a, [], 0⟩ : AgentLoad))).map (fun e => e.agent)
      = agents := by
  induction agents with
  | nil => rfl
  | cons a rest ih => simp only [List.map_cons, ih]

theorem distribute_refines_spec (tasks : List Task) (agents : List String)
    (hne : agents ≠ []) (hnd : agents.Nodup) :
    suggest_task_redistribution tasks agents
      = (distributeSpec tasks agents).map (List.map projLoad) ∧
    suggest_task_redistribution
        [sampleTask "t1" 5 0, sampleTask "t2" 3 0, sampleTask "t3" 3 0]
        ["A", "B"]
      = some [("A", [sampleTask "t1" 5 0]),
          ("B", [sampleTask "t2" 3 0, sampleTask "t3" 3 0])] := by
  constructor
  · unfold suggest_task_redistribution distributeSpec
    have hinit : agents.foldl (fun d a => dictSet d a ([] : List Task)) []
        = (agents.map (fun a => (⟨a, [], 0⟩ : AgentLoad))).map projLoad := by
      rw [initWorkload_go agents [] (by simp [dictKeys]) hnd]
      simp [projLoad]
    rw [hinit]
    apply distribute_loop
    · simp [hne]
    · intro e he
      obtain ⟨a, ha, rfl⟩ := List.mem_map.mp he
      simp [taskWeightSum]
    · rw [map_agent_mk]
      exact hnd
  · decide

theorem distribute_refines_spec_witness :
    suggest_task_redistribution
        [sampleTask "t1" 5 0, sampleTask "t2" 3 0, sampleTask "t3" 3 0]
        ["A", "B"]
      = some [("A", [sampleTask "t1" 5 0]),
          ("B", [sampleTask "t2" 3 0, sampleTask "t3" 3 0])] :=
  (distribute_refines_spec
    [sampleTask "t1" 5 0, sampleTask "t2" 3 0, sampleTask "t3" 3 0]
    ["A", "B"] (by decide) (by decide)).2

end ScheduleAssistant
